import Mathlib

/-!
Verification of the token-facing core of the edge-identity repository
(`p11/p11.go`): byte-level signature post-processing, recoverable-signature
assembly, key resolution, key-pair generation validation, object search,
bulk deletion and EC-point extraction, shallowly embedded in Lean.

Conventions of the embedding: Go byte slices are `List Nat` (each element
a byte value), `big.Int` arithmetic is `Nat`/`Int` arithmetic, fallible
calls into the PKCS#11 token module are inputs of type `Except`/`Option`
supplied to the embedded operation, and the elliptic-curve recovery
collaborator is an abstract recovery map behind the documented input
validation it performs.
-/

namespace EdgeIdentity

/-- Decidable equality on `Except`, used to evaluate the embedded operations
on concrete inputs. -/
instance exceptDecEq {ε α : Type} [DecidableEq ε] [DecidableEq α] :
    DecidableEq (Except ε α)
  | .error a, .error b =>
    if h : a = b then isTrue (congrArg Except.error h)
    else isFalse fun hc => h (Except.error.inj hc)
  | .error _, .ok _ => isFalse fun hc => Except.noConfusion hc
  | .ok _, .error _ => isFalse fun hc => Except.noConfusion hc
  | .ok a, .ok b =>
    if h : a = b then isTrue (congrArg Except.ok h)
    else isFalse fun hc => h (Except.ok.inj hc)

/-- Big-endian byte interpretation of a byte slice, as `big.Int.SetBytes`. -/
def setBytes (bs : List Nat) : Nat :=
  bs.foldl (fun acc b => acc * 256 + b) 0

/-- Minimal big-endian byte representation of a natural number, as
`big.Int.Bytes`: zero yields the empty slice, otherwise there is no leading
zero byte. -/
def intBytes (n : Nat) : List Nat :=
  if h : n = 0 then [] else intBytes (n / 256) ++ [n % 256]
termination_by n
decreasing_by
  exact Nat.div_lt_self (Nat.pos_of_ne_zero h) (by norm_num)

/-- Order of the secp256k1 curve, `crypto.S256().Params().N` (p11.go line 34). -/
def secp256k1N : Nat :=
  0xFFFFFFFFFFFFFFFFFFFFFFFFFFFFFFFEBAAEDCE6AF48A03BBFD25E8CD0364141

/-- Half the curve order, `new(big.Int).Div(secp256k1N, big.NewInt(2))`
(p11.go line 35). -/
def secp256k1HalfN : Nat := secp256k1N / 2

/-- The length constant `common.HashLength` used by `fixLen`. -/
def hashLength : Nat := 32

/-- Leading zero bytes of a slice, as skipped by the index scan at the top of
`fixLen` (p11.go lines 721-727). -/
def dropLeadingZeros : List Nat → List Nat
  | [] => []
  | b :: rest => if b = 0 then dropLeadingZeros rest else b :: rest

/-- The `fixLen` helper (p11.go lines 720-732): skip leading zero bytes, then
`copy` the remainder into a fresh 32-byte zero buffer. `copy` writes from the
start of the buffer, so the surviving bytes land at the front and the zero
padding is on the right. -/
def fixLen (b : List Nat) : List Nat :=
  (dropLeadingZeros b ++ List.replicate hashLength 0).take hashLength

/-- Modelled from the spec: "Both R and S are then left-padded to exactly 32
bytes (stripping any leading zero bytes first, then re-padding)" — the
value-preserving left padding the spec describes, for comparison with the
`fixLen` the code implements. -/
def fixLenSpec (b : List Nat) : List Nat :=
  List.replicate (hashLength - (dropLeadingZeros b).length) 0 ++
    dropLeadingZeros b

/-- Error outcomes of the embedded operations, naming the error returns of
`p11/p11.go` (`errors.New`/`errors.Errorf` sites) and of the elliptic-curve
collaborator; `tokenError` stands for an error code surfaced by the
underlying token module. -/
inductive P11Error where
  | keyNotFound
  | ambiguousKey
  | invalidKeySize
  | invalidKeyType
  | keyAlreadyExists
  | recoveryFailed
  | notVerified
  | invalidSignatureLength
  | invalidRecoveryId
  | attributeReadFailed
  | destroyFailed
  | tokenError (code : Nat)
deriving DecidableEq

/-- Abstract elliptic-curve public-key recovery map: hash, 64-byte R∥S body
and recovery id to recovered raw public-key bytes. -/
def RecMap : Type :=
  List Nat → List Nat → Nat → Except P11Error (List Nat)

/-- Modelled from the spec: the elliptic-curve collaborator performs
"public-key recovery from (hash, 65-byte signature) → raw public-key bytes"
(spec section 6). The concrete primitive the code binds to, go-ethereum
`crypto.Ecrecover`, validates its input before recovering: the signature must
be exactly 65 bytes and the final recovery-id byte must be below 4; the
recovery computation itself stays an abstract map. -/
def ecrecover (recMap : RecMap) (hash sig : List Nat) :
    Except P11Error (List Nat) :=
  if sig.length ≠ 65 then .error .invalidSignatureLength
  else if 4 ≤ sig.getLastD 0 then .error .invalidRecoveryId
  else recMap hash (sig.take 64) (sig.getLastD 0)

/-- Unique key resolution shared by `p11Token.Sign` (p11.go lines 385-395) and
`p11Token.GetPublicKey` (lines 352-362): more than one match is ambiguous,
zero matches is not found, exactly one match is returned. -/
def resolveUnique (objects : List Nat) : Except P11Error Nat :=
  if objects.length > 1 then .error .ambiguousKey
  else
    match objects with
    | [] => .error .keyNotFound
    | o :: _ => .ok o

/-- Low-S normalization of the raw 64-byte token signature (p11.go lines
413-419): take `sig[32:64]`, and when its value exceeds half the curve order
replace it with the bytes of `secp256k1N - S` (`big.Int.Bytes` of the
difference, whose absolute value Go takes). -/
def normalizeS (raw : List Nat) : List Nat :=
  if secp256k1HalfN < setBytes ((raw.drop 32).take 32) then
    intBytes
      ((secp256k1N : Int) - (setBytes ((raw.drop 32).take 32) : Int)).natAbs
  else (raw.drop 32).take 32

/-- The 64-byte R∥S body assembled by `p11Token.Sign` (p11.go line 422):
`append(fixLen(sigR), fixLen(sigS)...)`. -/
def mkSigRS (raw : List Nat) : List Nat :=
  fixLen (raw.take 32) ++ fixLen (normalizeS raw)

/-- Possible outcomes of the embedded `Sign`: a 65-byte signature, an error
returned to the caller, or process termination (`log.Fatalf`). -/
inductive SignOutcome where
  | ok (sig : List Nat)
  | err (e : P11Error)
  | fatal (msg : String)
deriving DecidableEq

/-- Recovery-id derivation of `p11Token.Sign` (p11.go lines 423-446): try the
candidate signature `sigRS ∥ 0` against the recovery collaborator, compare
the recovered bytes with the resolved EC point, then try `sigRS ∥ 1`; the
matching candidate byte gets 27 added in place, and when neither matches the
operation fails. -/
def deriveRecId (recMap : RecMap) (hash ecpt sigRS : List Nat) : SignOutcome :=
  match ecrecover recMap hash (sigRS ++ [0]) with
  | .error e => .err e
  | .ok recPub =>
    if recPub = ecpt then .ok (sigRS ++ [27])
    else
      match ecrecover recMap hash (sigRS ++ [1]) with
      | .error e => .err e
      | .ok recPub2 =>
        if recPub2 = ecpt then .ok (sigRS ++ [28])
        else .err .recoveryFailed

/-- The `p11Token.Sign` pipeline (p11.go lines 374-447), assembled from the
pieces above: resolve a unique private key, `SignInit` (whose failure the code
answers with `log.Fatalf`), raw token signing, public-key lookup, R∥S
assembly and recovery-id derivation. -/
def signOp (recMap : RecMap) (objects : List Nat) (initErr : Option Nat)
    (rawRes pubRes : Except P11Error (List Nat)) (hash : List Nat) :
    SignOutcome :=
  match resolveUnique objects with
  | .error e => .err e
  | .ok _ =>
    match initErr with
    | some _ => .fatal "Signing Initiation failed"
    | none =>
      match rawRes with
      | .error e => .err e
      | .ok raw =>
        match pubRes with
        | .error e => .err e
        | .ok ecpt => deriveRecId recMap hash ecpt (mkSigRS raw)

/-- The `p11Token.Verify` pipeline (p11.go lines 449-464): resolve the public
key (abstracted as `pubRes`), feed the full caller-supplied signature to the
recovery collaborator unchanged, and compare the recovered bytes with the
resolved EC point. -/
def verifyOp (recMap : RecMap) (pubRes : Except P11Error (List Nat))
    (hash signature : List Nat) : Except P11Error Unit :=
  match pubRes with
  | .error e => .error e
  | .ok ecpt =>
    match ecrecover recMap hash signature with
    | .error e => .error e
    | .ok recPub => if recPub = ecpt then .ok () else .error .notVerified

/-- An attribute of a token object: a kind (such as `CKA_LABEL` or `CKA_ID`)
paired with a value, as in `pkcs11.NewAttribute`. -/
structure TAttr where
  kind : Nat
  value : List Nat
deriving DecidableEq

/-- A token-resident object: an opaque handle plus its attribute set. -/
structure TokObject where
  handle : Nat
  attrs : List TAttr
deriving DecidableEq

/-- An object matches an attribute template when every template attribute is
present on the object with an equal value — the semantics of a PKCS#11
`FindObjectsInit` template. -/
def matchesTemplate (o : TokObject) (template : List TAttr) : Bool :=
  template.all fun t => o.attrs.any fun a => a.kind = t.kind && a.value = t.value

/-- Handles of the token objects matching a template, in store order — the
object list `findAllMatching` aggregates for `Sign` and `GetPublicKey`. -/
def findMatching (store : List TokObject) (template : List TAttr) : List Nat :=
  (store.filter (matchesTemplate · template)).map (·.handle)

/-- Result of the `p11Token.GenerateKeyPair` dispatch (p11.go lines 466-494):
either the validated request proceeds to the type-specific generation routine
or it fails without any token call. -/
inductive GenResult where
  | proceedRSA (label : String) (keysize : Int)
  | proceedAES (label : String) (keysize : Int)
  | proceedEC (label keyid : String)
  | failure (e : P11Error)
deriving DecidableEq

/-- The `isValidSize` helper (p11.go lines 669-676): scan the valid-size list
for the requested size. -/
def isValidSize (sizes : List Int) (inSize : Int) : Bool :=
  sizes.any fun n => inSize == n

/-- Valid RSA key sizes (p11.go line 468). -/
def validRSASize : List Int := [1024, 2048, 3072, 4096]

/-- Valid AES key sizes (p11.go line 469). -/
def validAESSize : List Int := [128, 192, 256]

/-- Valid EC key sizes as the code declares them (p11.go line 470) — the same
list as the AES sizes, not only 256. -/
def validECSize : List Int := [128, 192, 256]

/-- The `p11Token.GenerateKeyPair` validation dispatch (p11.go lines 466-494):
switch on the key type, check the size against the table for that type, and
additionally require the algorithm designator "S256"; otherwise fail with the
invalid-size (or invalid-type) error before any token call. -/
def generateKeyPair (label keyid algorithm keytype : String) (keysize : Int) :
    GenResult :=
  if keytype = "RSA" then
    if isValidSize validRSASize keysize then .proceedRSA label keysize
    else .failure .invalidKeySize
  else if keytype = "AES" then
    if isValidSize validAESSize keysize then .proceedAES label keysize
    else .failure .invalidKeySize
  else if keytype = "EC" then
    if isValidSize validECSize keysize && (algorithm == "S256") then
      .proceedEC label keyid
    else .failure .invalidKeySize
  else .failure .invalidKeyType

/-- Calls an object search makes against the token module. -/
inductive FEvent where
  | initCall
  | pageCall
  | finalCall
deriving DecidableEq

/-- Scripted token-module behavior for one object search: the outcome of
`FindObjectsInit`, the successive results of the paging `FindObjects` calls
(an exhausted script stands for further empty batches), and the outcome of
`FindObjectsFinal`. -/
structure FindBehavior where
  initErr : Option P11Error
  pages : List (Except P11Error (List Nat))
  finalErr : Option P11Error
deriving DecidableEq

/-- The paging loop of `findAllMatching` (p11.go lines 301-315): page until an
error or an empty batch, recording one `pageCall` event per `FindObjects`
call. -/
def findPagesLoop : List (Except P11Error (List Nat)) → List Nat →
    List FEvent × Except P11Error (List Nat)
  | [], acc => ([.pageCall], .ok acc)
  | r :: rest, acc =>
    match r with
    | .error e => ([.pageCall], .error e)
    | .ok [] => ([.pageCall], .ok acc)
    | .ok batch =>
      let next := findPagesLoop rest (acc ++ batch)
      (.pageCall :: next.1, next.2)

/-- The `p11Token.findAllMatching` search (p11.go lines 292-319) with its
call trace: init, page until error or exhaustion, and — only when the loop
exits without error — finalize. A paging error returns immediately, before
the `FindObjectsFinal` call. -/
def findAllMatchingTr (b : FindBehavior) :
    List FEvent × Except P11Error (List Nat) :=
  match b.initErr with
  | some e => ([.initCall], .error e)
  | none =>
    let loop := findPagesLoop b.pages []
    match loop.2 with
    | .error e => (.initCall :: loop.1, .error e)
    | .ok objs =>
      match b.finalErr with
      | some e => (.initCall :: loop.1 ++ [.finalCall], .error e)
      | none => (.initCall :: loop.1 ++ [.finalCall], .ok objs)

/-- Objects the single `FindObjects` call of `findKeyByLabel` yields: a failed
call yields no objects, as the Go binding returns `nil` on error. -/
def firstPageObjects (ps : List (Except P11Error (List Nat))) : List Nat :=
  match ps.headD (.ok []) with
  | .error _ => []
  | .ok l => l

/-- The `p11Token.findKeyByLabel` search (p11.go lines 211-233) with its call
trace: init, a single `FindObjects` call asking for one object, and — only
when exactly one object came back — finalize. The match-count check returns
before the `FindObjectsFinal` call. -/
def findKeyByLabelTr (b : FindBehavior) : List FEvent × Except P11Error Nat :=
  match b.initErr with
  | some e => ([.initCall], .error e)
  | none =>
    if (firstPageObjects b.pages).length ≠ 1 then
      ([.initCall, .pageCall], .error .keyNotFound)
    else
      match b.finalErr with
      | some e => ([.initCall, .pageCall, .finalCall], .error e)
      | none =>
        ([.initCall, .pageCall, .finalCall],
         .ok ((firstPageObjects b.pages).headD 0))

/-- Whether the paging loop runs to completion: no scripted page errors
before the first empty batch (or the end of the script). -/
def pagesClean : List (Except P11Error (List Nat)) → Bool
  | [] => true
  | .error _ :: _ => false
  | .ok [] :: _ => true
  | .ok (_ :: _) :: rest => pagesClean rest

/-- Whether the single `FindObjects` call of `findKeyByLabel` yields exactly
one object. -/
def firstPageSingle (ps : List (Except P11Error (List Nat))) : Bool :=
  (firstPageObjects ps).length == 1

/-- Outcome of reading the label attribute of one token object during
`DeleteAllExcept`: a label, the no-such-attribute error
(`CKR_ATTRIBUTE_TYPE_INVALID`), or any other read error. -/
inductive LabelRead where
  | found (label : String)
  | noAttr
  | otherErr (code : Nat)
deriving DecidableEq

/-- A token object as `DeleteAllExcept` observes it: its handle, the outcome
of reading its label, and whether `DestroyObject` on it succeeds. -/
structure TokenObj where
  handle : Nat
  labelRead : LabelRead
  destroyOk : Bool
deriving DecidableEq

/-- The `p11Token.DeleteAllExcept` loop (p11.go lines 103-156) over the
enumerated objects: read each label (treating the no-such-attribute error as
an unlabeled object, to be deleted anyway), keep objects whose label is in
`keyLabels`, destroy the rest, and abort on any other label-read error or
destroy failure. Returns the handles destroyed, in order, and the overall
outcome. -/
def deleteAllExcept (keyLabels : List String) :
    List TokenObj → List Nat × Except P11Error Unit
  | [] => ([], .ok ())
  | o :: rest =>
    match o.labelRead with
    | .otherErr _ => ([], .error .attributeReadFailed)
    | .found l =>
      if keyLabels.contains l then deleteAllExcept keyLabels rest
      else if o.destroyOk then
        let next := deleteAllExcept keyLabels rest
        (o.handle :: next.1, next.2)
      else ([], .error .destroyFailed)
    | .noAttr =>
      if o.destroyOk then
        let next := deleteAllExcept keyLabels rest
        (o.handle :: next.1, next.2)
      else ([], .error .destroyFailed)

/-- Whether `DeleteAllExcept` destroys an object: its label read fails with
no-such-attribute, or its label is absent from the keep list. -/
def shouldDelete (keyLabels : List String) (o : TokenObj) : Bool :=
  match o.labelRead with
  | .found l => !(keyLabels.contains l)
  | .noAttr => true
  | .otherErr _ => false

/-- Whether one object lets `DeleteAllExcept` continue past it: its label
read does not fail with an unexpected error, and if it is to be destroyed the
destroy succeeds. -/
def goodObj (keyLabels : List String) (o : TokenObj) : Bool :=
  (match o.labelRead with
   | .otherErr _ => false
   | _ => true)
  && (!(shouldDelete keyLabels o) || o.destroyOk)

/-- The per-attribute normalization of `ecPoint` (p11.go lines 688-698) with
the panicking Go index accesses made explicit: `none` models an out-of-bounds
slice index (a runtime panic). The first case needs indices 0 and `len-1`,
the second indices 0 and 2, and Go evaluates the conditions left to right,
short-circuiting on the first false conjunct. -/
def ecPointTransform (v : List Nat) : Option (List Nat) :=
  let cond1 : Option Bool :=
    if v.length % 2 ≠ 0 then some false
    else
      match v.get? 0 with
      | none => none
      | some a =>
        if a ≠ 4 then some false
        else
          match v.get? (v.length - 1) with
          | none => none
          | some b => some (b = 4)
  match cond1 with
  | none => none
  | some true => some (v.take (v.length - 1))
  | some false =>
    let cond2 : Option Bool :=
      match v.get? 0 with
      | none => none
      | some a =>
        if a ≠ 4 then some false
        else
          match v.get? 2 with
          | none => none
          | some c => some (c = 4)
    match cond2 with
    | none => none
    | some true => some (v.drop 2)
    | some false => some v

/-- A recovery map that recovers the fixed point `[7]` for every input: a
concrete collaborator instantiation used to evaluate the signing pipeline. -/
def recMapX : RecMap := fun _ _ _ => .ok [7]

/-- A concrete 32-byte hash: 32 bytes of value 1. -/
def hashX : List Nat := List.replicate 32 1

/-- A concrete raw 64-byte token signature: all bytes 1; both halves have no
leading zero byte and the S half is below half the curve order. -/
def rawX : List Nat := List.replicate 64 1

/-- A concrete raw token signature whose S half is `0x0080 ∥ 0^30`: its value
2^247 is below half the curve order, but `fixLen` shifts it to 2^255, above
half the curve order. -/
def rawShiftS : List Nat :=
  List.replicate 32 1 ++ (0 :: 128 :: List.replicate 30 0)

/-- The signature the embedded `Sign` produces from `rawShiftS` under
`recMapX`. -/
def sigShiftS : List Nat :=
  (List.replicate 32 1 ++ (128 :: List.replicate 31 0)) ++ [27]

/-- A 32-byte slice whose value 1 sits in the last byte: `fixLen` input
showing the padding lands on the wrong side. -/
def padInput : List Nat := List.replicate 31 0 ++ [1]

/-- A behavior whose first paging call fails after a successful
`FindObjectsInit`. -/
def behaviorPageError : FindBehavior :=
  { initErr := none, pages := [.error (.tokenError 5)], finalErr := none }

theorem foldl_mul_add (l : List Nat) :
    ∀ acc : Nat, l.foldl (fun a b => a * 256 + b) acc
      = acc * 256 ^ l.length + setBytes l := by
  induction l with
  | nil => intro acc; simp [setBytes]
  | cons b t ih =>
    intro acc
    have hbt : setBytes (b :: t) = b * 256 ^ t.length + setBytes t := by
      show List.foldl _ (0 * 256 + b) t = _
      rw [show 0 * 256 + b = b by ring]
      exact ih b
    simp only [List.foldl_cons, List.length_cons]
    rw [ih (acc * 256 + b), hbt]
    ring

theorem setBytes_cons (b : Nat) (t : List Nat) :
    setBytes (b :: t) = b * 256 ^ t.length + setBytes t := by
  show List.foldl _ (0 * 256 + b) t = _
  rw [show 0 * 256 + b = b by ring]
  exact foldl_mul_add t b

theorem setBytes_append (l r : List Nat) :
    setBytes (l ++ r) = setBytes l * 256 ^ r.length + setBytes r := by
  show List.foldl _ 0 (l ++ r) = _
  rw [List.foldl_append]
  exact foldl_mul_add r (setBytes l)

theorem setBytes_dropLeadingZeros (l : List Nat) :
    setBytes (dropLeadingZeros l) = setBytes l := by
  induction l with
  | nil => rfl
  | cons b t ih =>
    by_cases hb : b = 0
    · subst hb
      rw [show dropLeadingZeros (0 :: t) = dropLeadingZeros t from by
        simp [dropLeadingZeros]]
      rw [ih, setBytes_cons]
      simp
    · simp [dropLeadingZeros, hb]

theorem dropLeadingZeros_subset (l : List Nat) :
    ∀ b ∈ dropLeadingZeros l, b ∈ l := by
  induction l with
  | nil => simp [dropLeadingZeros]
  | cons a t ih =>
    by_cases ha : a = 0
    · subst ha
      intro b hb
      rw [show dropLeadingZeros (0 :: t) = dropLeadingZeros t from by
        simp [dropLeadingZeros]] at hb
      exact List.mem_cons_of_mem 0 (ih b hb)
    · simp [dropLeadingZeros, ha]

theorem dropLeadingZeros_length_le (l : List Nat) :
    (dropLeadingZeros l).length ≤ l.length := by
  induction l with
  | nil => simp [dropLeadingZeros]
  | cons a t ih =>
    by_cases ha : a = 0
    · subst ha
      rw [show dropLeadingZeros (0 :: t) = dropLeadingZeros t from by
        simp [dropLeadingZeros]]
      exact le_trans ih (by simp)
    · simp [dropLeadingZeros, ha]

theorem setBytes_lt (l : List Nat) (h : ∀ b ∈ l, b < 256) :
    setBytes l < 256 ^ l.length := by
  induction l with
  | nil => simp [setBytes]
  | cons b t ih =>
    rw [setBytes_cons]
    have hb : b < 256 := h b (by simp)
    have ht : setBytes t < 256 ^ t.length :=
      ih fun x hx => h x (List.mem_cons_of_mem b hx)
    calc b * 256 ^ t.length + setBytes t
        < (b + 1) * 256 ^ t.length := by nlinarith
      _ ≤ 256 * 256 ^ t.length := Nat.mul_le_mul_right _ (by omega)
      _ = 256 ^ (b :: t).length := by rw [List.length_cons]; ring

theorem fixLen_length (b : List Nat) : (fixLen b).length = 32 := by
  simp only [fixLen, hashLength, List.length_take, List.length_append,
    List.length_replicate]
  omega

theorem mkSigRS_length (raw : List Nat) : (mkSigRS raw).length = 64 := by
  simp [mkSigRS, fixLen_length]

theorem setBytes_intBytes (n : Nat) : setBytes (intBytes n) = n := by
  induction n using Nat.strong_induction_on with
  | _ n ih =>
    by_cases h : n = 0
    · subst h; rw [intBytes]; rfl
    · rw [intBytes, dif_neg h, setBytes_append,
        ih (n / 256) (Nat.div_lt_self (Nat.pos_of_ne_zero h) (by norm_num))]
      have : setBytes [n % 256] = n % 256 := by simp [setBytes]
      rw [this]
      simp only [List.length_cons, List.length_nil, pow_one]
      omega

theorem intBytes_length_le : ∀ (k n : Nat), n < 256 ^ k →
    (intBytes n).length ≤ k := by
  intro k
  induction k with
  | zero =>
    intro n h
    have : n = 0 := by simpa using h
    subst this
    rw [intBytes]
    simp
  | succ k ih =>
    intro n h
    by_cases h0 : n = 0
    · subst h0; rw [intBytes]; simp
    · rw [intBytes, dif_neg h0]
      have hdiv : n / 256 < 256 ^ k := by
        rw [Nat.div_lt_iff_lt_mul (by norm_num)]
        calc n < 256 ^ (k + 1) := h
          _ = 256 ^ k * 256 := by ring
      simpa using ih (n / 256) hdiv

theorem intBytes_mem_lt (n : Nat) : ∀ b ∈ intBytes n, b < 256 := by
  induction n using Nat.strong_induction_on with
  | _ n ih =>
    by_cases h : n = 0
    · subst h; rw [intBytes]; simp
    · rw [intBytes, dif_neg h]
      intro b hb
      rcases List.mem_append.mp hb with hl | hr
      · exact ih (n / 256) (Nat.div_lt_self (Nat.pos_of_ne_zero h)
          (by norm_num)) b hl
      · have : b = n % 256 := by simpa using hr
        subst this
        exact Nat.mod_lt _ (by norm_num)

theorem dropLeadingZeros_length_eq (l : List Nat) (hlen : l.length ≤ 32)
    (hmem : ∀ b ∈ l, b < 256) (hbig : 256 ^ 31 ≤ setBytes l) :
    (dropLeadingZeros l).length = 32 := by
  have h1 : (dropLeadingZeros l).length ≤ 32 :=
    le_trans (dropLeadingZeros_length_le l) hlen
  have h2 : setBytes (dropLeadingZeros l) < 256 ^ (dropLeadingZeros l).length :=
    setBytes_lt _ fun b hb => hmem b (dropLeadingZeros_subset l b hb)
  rw [setBytes_dropLeadingZeros] at h2
  have h3 : (256 : Nat) ^ 31 < 256 ^ (dropLeadingZeros l).length :=
    lt_of_le_of_lt hbig h2
  have h4 : 31 < (dropLeadingZeros l).length := by
    by_contra hc
    push_neg at hc
    exact absurd h3 (not_lt.mpr (Nat.pow_le_pow_right (by norm_num) hc))
  omega

theorem fixLen_of_big (l : List Nat) (hlen : l.length ≤ 32)
    (hmem : ∀ b ∈ l, b < 256) (hbig : 256 ^ 31 ≤ setBytes l) :
    fixLen l = dropLeadingZeros l := by
  have h32 := dropLeadingZeros_length_eq l hlen hmem hbig
  show (dropLeadingZeros l ++ List.replicate 32 0).take 32 = dropLeadingZeros l
  exact List.take_left' h32

theorem sliceS_lt (raw : List Nat) (hmem : ∀ b ∈ raw, b < 256) :
    setBytes ((raw.drop 32).take 32) < 256 ^ 32 := by
  have hsub : ∀ b ∈ (raw.drop 32).take 32, b < 256 := fun b hb =>
    hmem b (List.drop_subset 32 raw (List.take_subset 32 _ hb))
  calc setBytes ((raw.drop 32).take 32)
      < 256 ^ ((raw.drop 32).take 32).length := setBytes_lt _ hsub
    _ ≤ 256 ^ 32 := Nat.pow_le_pow_right (by norm_num) (List.length_take_le _ _)

theorem pow256_32_val : (256 : Nat) ^ 32 =
    115792089237316195423570985008687907853269984665640564039457584007913129639936 := by
  norm_num

theorem secpN_odd : secp256k1N = 2 * secp256k1HalfN + 1 := by decide

theorem secpN_gap : (115792089237316195423570985008687907853269984665640564039457584007913129639936 : Nat)
    - secp256k1N ≤ secp256k1HalfN := by decide

theorem normalizeS_le_halfN (raw : List Nat) (hmem : ∀ b ∈ raw, b < 256) :
    setBytes (normalizeS raw) ≤ secp256k1HalfN := by
  unfold normalizeS
  by_cases hgt : secp256k1HalfN < setBytes ((raw.drop 32).take 32)
  · rw [if_pos hgt, setBytes_intBytes]
    have hs := sliceS_lt raw hmem
    rw [pow256_32_val] at hs
    have hN2 := secpN_odd
    have h2N := secpN_gap
    omega
  · rw [if_neg hgt]
    omega

theorem normalizeS_length_le (raw : List Nat) (hmem : ∀ b ∈ raw, b < 256) :
    (normalizeS raw).length ≤ 32 := by
  unfold normalizeS
  by_cases hgt : secp256k1HalfN < setBytes ((raw.drop 32).take 32)
  · rw [if_pos hgt]
    apply intBytes_length_le
    have hs := sliceS_lt raw hmem
    rw [pow256_32_val] at hs ⊢
    have hN2 := secpN_odd
    have h2N := secpN_gap
    omega
  · rw [if_neg hgt]
    exact List.length_take_le _ _

theorem normalizeS_mem_lt (raw : List Nat) (hmem : ∀ b ∈ raw, b < 256) :
    ∀ b ∈ normalizeS raw, b < 256 := by
  unfold normalizeS
  by_cases hgt : secp256k1HalfN < setBytes ((raw.drop 32).take 32)
  · rw [if_pos hgt]
    exact intBytes_mem_lt _
  · rw [if_neg hgt]
    exact fun b hb =>
      hmem b (List.drop_subset 32 raw (List.take_subset 32 _ hb))

theorem setBytes_fixLen_normalizeS (raw : List Nat)
    (hmem : ∀ b ∈ raw, b < 256)
    (hbig : 256 ^ 31 ≤ setBytes (normalizeS raw)) :
    setBytes (fixLen (normalizeS raw)) = setBytes (normalizeS raw) ∧
      setBytes (normalizeS raw) ≤ secp256k1HalfN := by
  constructor
  · rw [fixLen_of_big _ (normalizeS_length_le raw hmem)
      (normalizeS_mem_lt raw hmem) hbig, setBytes_dropLeadingZeros]
  · exact normalizeS_le_halfN raw hmem

theorem deriveRecId_ok (recMap : RecMap) (hash ecpt rs sig : List Nat)
    (h : deriveRecId recMap hash ecpt rs = .ok sig) :
    sig = rs ++ [27] ∨ sig = rs ++ [28] := by
  unfold deriveRecId at h
  split at h
  · exact SignOutcome.noConfusion h
  · split at h
    · exact Or.inl (SignOutcome.ok.inj h).symm
    · split at h
      · exact SignOutcome.noConfusion h
      · split at h
        · exact Or.inr (SignOutcome.ok.inj h).symm
        · exact SignOutcome.noConfusion h

theorem signOp_ok (recMap : RecMap) (objects : List Nat) (initErr : Option Nat)
    (rawRes pubRes : Except P11Error (List Nat)) (hash sig : List Nat)
    (h : signOp recMap objects initErr rawRes pubRes hash = .ok sig) :
    ∃ raw, rawRes = .ok raw ∧
      (sig = mkSigRS raw ++ [27] ∨ sig = mkSigRS raw ++ [28]) := by
  unfold signOp at h
  split at h
  · exact SignOutcome.noConfusion h
  · split at h
    · exact SignOutcome.noConfusion h
    · split at h
      · exact SignOutcome.noConfusion h
      · split at h
        · exact SignOutcome.noConfusion h
        · rename_i xr raw xp ecpt
          exact ⟨raw, rfl, deriveRecId_ok recMap hash ecpt (mkSigRS raw) sig h⟩

/-- C1: the claim states that `Verify(label, keyid, hash, Sign(...))` on the
65-byte result succeeds. It cannot: whatever the abstract recovery map, the
token behavior and the resolved public key, every signature the embedded
`Sign` returns ends in recovery byte 27 or 28 (p11.go line 431/442), and
`Verify` (p11.go line 454) hands that signature unchanged to the recovery
collaborator, which rejects any recovery-id byte of 4 or more — unlike the
sibling `recoverAddress` (p11.go lines 703-705), which subtracts 27 first.
So `Verify` fails on every signature `Sign` produces. -/
theorem sign_then_verify_always_rejected (recMap : RecMap) (objects : List Nat)
    (initErr : Option Nat) (rawRes pubRes : Except P11Error (List Nat))
    (hash sig ecptV : List Nat)
    (h : signOp recMap objects initErr rawRes pubRes hash = .ok sig) :
    verifyOp recMap (.ok ecptV) hash sig = .error .invalidRecoveryId := by
  obtain ⟨raw, _, hcase⟩ :=
    signOp_ok recMap objects initErr rawRes pubRes hash sig h
  have hlen : sig.length = 65 := by
    rcases hcase with hc | hc <;>
      simp [hc, List.length_append, mkSigRS_length]
  have hlast : 4 ≤ sig.getLastD 0 := by
    rcases hcase with hc | hc <;> simp [hc]
  have hec : ecrecover recMap hash sig = .error .invalidRecoveryId := by
    unfold ecrecover
    rw [if_neg (by omega), if_pos hlast]
  simp [verifyOp, hec]

/-- C1 witness: a concrete run. With the constant recovery map `recMapX`
and the all-ones raw token signature, `Sign` succeeds returning
`rawX ++ [27]`, and `Verify` on that very signature fails with the
invalid-recovery-id error. -/
theorem sign_then_verify_always_rejected_witness :
    verifyOp recMapX (.ok [9]) hashX (rawX ++ [27])
      = .error .invalidRecoveryId :=
  sign_then_verify_always_rejected recMapX [5] none (.ok rawX) (.ok [7])
    hashX (rawX ++ [27]) [9] (by rfl)

/-- C2 counterexample: a successful `Sign` whose S component exceeds half the
curve order. The raw token S half is `0x00 ∥ 0x80 ∥ 0^30` (value 2^247, below
half the curve order, so low-S normalization leaves it alone), but `fixLen`
strips the leading zero and pads on the right, so the emitted S bytes encode
2^255, above half the curve order — returned whenever the recovery map
matches, as the constant map `recMapX` does. -/
theorem sign_high_s_counterexample :
    signOp recMapX [5] none (.ok rawShiftS) (.ok [7]) hashX = .ok sigShiftS
    ∧ sigShiftS.length = 65
    ∧ sigShiftS.getLastD 0 = 27
    ∧ secp256k1HalfN < setBytes ((sigShiftS.drop 32).take 32) := by
  refine ⟨by rfl, by rfl, by rfl, by decide⟩

/-- C2 amended: every signature `Sign` returns is exactly 65 bytes with
recovery byte 27 or 28; its S component (bytes 32-63) carries the value of
`fixLen` applied to the low-S-normalized S, which equals that normalized
value — and is then at most half the curve order — whenever the normalized S
occupies a full 32 bytes (no leading zero byte); `fixLen` right-padding can
otherwise shift it above the bound. -/
theorem sign_output_form (recMap : RecMap) (objects : List Nat)
    (initErr : Option Nat) (raw : List Nat)
    (pubRes : Except P11Error (List Nat)) (hash sig : List Nat)
    (hmem : ∀ b ∈ raw, b < 256)
    (h : signOp recMap objects initErr (.ok raw) pubRes hash = .ok sig) :
    sig.length = 65
    ∧ (sig.getLastD 0 = 27 ∨ sig.getLastD 0 = 28)
    ∧ setBytes ((sig.drop 32).take 32) = setBytes (fixLen (normalizeS raw))
    ∧ (256 ^ 31 ≤ setBytes (normalizeS raw) →
        setBytes ((sig.drop 32).take 32) ≤ secp256k1HalfN) := by
  obtain ⟨raw2, hraw2, hcase⟩ :=
    signOp_ok recMap objects initErr (.ok raw) pubRes hash sig h
  have hrr : raw2 = raw := Except.ok.inj hraw2.symm
  rw [hrr] at hcase
  have hS : (sig.drop 32).take 32 = fixLen (normalizeS raw) := by
    have hsplit : ∀ c : List Nat,
        (((fixLen (raw.take 32) ++ fixLen (normalizeS raw)) ++ c).drop 32).take
          32 = fixLen (normalizeS raw) := by
      intro c
      rw [List.append_assoc, List.drop_left' (fixLen_length _),
        List.take_left' (fixLen_length _)]
    rcases hcase with hc | hc <;> rw [hc, mkSigRS] <;> exact hsplit _
  refine ⟨?_, ?_, ?_, ?_⟩
  · rcases hcase with hc | hc <;>
      simp [hc, List.length_append, mkSigRS_length]
  · rcases hcase with hc | hc <;> simp [hc]
  · rw [hS]
  · intro hbig
    rw [hS]
    obtain ⟨he, hle⟩ := setBytes_fixLen_normalizeS raw hmem hbig
    rw [he]
    exact hle

/-- C2 amended witness: the concrete all-ones run again; its normalized S
occupies 32 full bytes, so all four conclusions hold of the returned
signature. -/
theorem sign_output_form_witness :
    (rawX ++ [27]).length = 65
    ∧ ((rawX ++ [27]).getLastD 0 = 27 ∨ (rawX ++ [27]).getLastD 0 = 28)
    ∧ setBytes (((rawX ++ [27]).drop 32).take 32)
      = setBytes (fixLen (normalizeS rawX))
    ∧ (256 ^ 31 ≤ setBytes (normalizeS rawX) →
        setBytes (((rawX ++ [27]).drop 32).take 32) ≤ secp256k1HalfN) :=
  sign_output_form recMapX [5] none rawX (.ok [7]) hashX (rawX ++ [27])
    (by decide) (by rfl)

/-- C3: the claim states R and S appear in the output left-padded to 32 bytes
with their integer values preserved. The code pads on the other side: on the
32-byte input `0^31 ∥ 0x01`, `fixLen` strips the 31 leading zeros and copies
the surviving byte to the front of the zero buffer, returning `0x01 ∥ 0^31`
(value 2^248) where the value-preserving left padding of the spec returns the
input unchanged (value 1); the same corrupted bytes appear as the R component
of the assembled R∥S body. -/
theorem fixlen_pads_right :
    fixLen padInput = 1 :: List.replicate 31 0
    ∧ setBytes (fixLen padInput) = 256 ^ 31
    ∧ setBytes padInput = 1
    ∧ fixLenSpec padInput = padInput
    ∧ fixLen padInput ≠ fixLenSpec padInput
    ∧ setBytes ((mkSigRS (padInput ++ List.replicate 32 1)).take 32)
      = 256 ^ 31 := by
  refine ⟨by decide, by decide, by decide, by decide, by decide, by decide⟩

/-- C9: when `SignInit` fails, `Sign` does not return a wrapped error — it
calls `log.Fatalf` (p11.go line 399), terminating the process; a failure of
the raw `ctx.Sign` call, by contrast, is returned to the caller (unwrapped,
p11.go lines 403-406). -/
theorem sign_init_failure_terminates (recMap : RecMap) (o e : Nat)
    (rawRes pubRes : Except P11Error (List Nat)) (hash : List Nat) :
    signOp recMap [o] (some e) rawRes pubRes hash
      = .fatal "Signing Initiation failed"
    ∧ signOp recMap [o] none (.error (.tokenError e)) pubRes hash
      = .err (.tokenError e) := by
  constructor <;> rfl

/-- C10: EC-point extraction is not total. On the 1-byte value `[0x04]` and
the 2-byte value `[0x04, 0x05]` the second case index access `a.Value[2]` is out
of bounds (modeled as `none`); well-formed values of the three documented
shapes are handled. -/
theorem ecPoint_short_input_out_of_bounds :
    ecPointTransform [4] = none
    ∧ ecPointTransform [4, 5] = none
    ∧ ecPointTransform [1, 2] = some [1, 2]
    ∧ ecPointTransform (4 :: (List.replicate 64 7 ++ [4]))
      = some (4 :: List.replicate 64 7) := by
  refine ⟨by decide, by decide, by decide, by decide⟩

/-- C4: unique key resolution over the objects matching an attribute
template, as `Sign` and `GetPublicKey` perform it: zero matches fail with the
not-found error, two or more with the ambiguity error, and exactly one match
returns that handle. -/
theorem resolveUnique_cases (store : List TokObject) (template : List TAttr) :
    (resolveUnique (findMatching store template) = .error .keyNotFound
      ↔ (findMatching store template).length = 0)
    ∧ (resolveUnique (findMatching store template) = .error .ambiguousKey
      ↔ 2 ≤ (findMatching store template).length)
    ∧ ∀ h : Nat, resolveUnique (findMatching store template) = .ok h
      ↔ findMatching store template = [h] := by
  rcases findMatching store template with _ | ⟨a, _ | ⟨b, t⟩⟩ <;>
    simp [resolveUnique]

/-- Validity scan of `isValidSize` restated as list membership. -/
theorem isValidSize_iff (sizes : List Int) (n : Int) :
    isValidSize sizes n = true ↔ n ∈ sizes := by
  unfold isValidSize
  rw [List.any_eq_true]
  constructor
  · rintro ⟨x, hx, hbeq⟩
    have hxe : n = x := by simpa using hbeq
    rw [hxe]
    exact hx
  · intro hn
    exact ⟨n, hn, by simp⟩

/-- C5 counterexample: the claim says EC generation proceeds only for key
size 256 (the documented "effectively 256 for secp256k1") and fails with the
invalid-size error otherwise; the code checks EC sizes against the same
128/192/256 table as AES, so sizes 128 and 192 with the secp256k1 designator
proceed to key generation instead of failing. -/
theorem generateKeyPair_ec_size_counterexample :
    generateKeyPair "l" "k" "S256" "EC" 128 = .proceedEC "l" "k"
    ∧ generateKeyPair "l" "k" "S256" "EC" 128 ≠ .failure .invalidKeySize
    ∧ generateKeyPair "l" "k" "S256" "EC" 192 = .proceedEC "l" "k" := by
  refine ⟨by decide, by decide, by decide⟩

/-- C5 amended: for each supported key type, generation proceeds exactly when
the key size is in the table the code declares for that type — RSA
1024/2048/3072/4096, AES 128/192/256, and EC 128/192/256 (the same table as
AES, not only 256) with the secp256k1 designator — and fails with the
invalid-size error, before any token call, for every size outside the
table. -/
theorem generateKeyPair_size_tables (l k alg : String) (ks : Int) :
    (generateKeyPair l k alg "RSA" ks = .proceedRSA l ks ↔ ks ∈ validRSASize)
    ∧ (generateKeyPair l k alg "RSA" ks = .failure .invalidKeySize
      ↔ ks ∉ validRSASize)
    ∧ (generateKeyPair l k alg "AES" ks = .proceedAES l ks ↔ ks ∈ validAESSize)
    ∧ (generateKeyPair l k alg "AES" ks = .failure .invalidKeySize
      ↔ ks ∉ validAESSize)
    ∧ (generateKeyPair l k "S256" "EC" ks = .proceedEC l k ↔ ks ∈ validECSize)
    ∧ (generateKeyPair l k "S256" "EC" ks = .failure .invalidKeySize
      ↔ ks ∉ validECSize) := by
  have hrsa : generateKeyPair l k alg "RSA" ks
      = if isValidSize validRSASize ks then GenResult.proceedRSA l ks
        else .failure .invalidKeySize := by
    unfold generateKeyPair
    rw [if_pos rfl]
  have haes : generateKeyPair l k alg "AES" ks
      = if isValidSize validAESSize ks then GenResult.proceedAES l ks
        else .failure .invalidKeySize := by
    unfold generateKeyPair
    rw [if_neg (by decide), if_pos rfl]
  have hec : generateKeyPair l k "S256" "EC" ks
      = if isValidSize validECSize ks then GenResult.proceedEC l k
        else .failure .invalidKeySize := by
    unfold generateKeyPair
    rw [if_neg (by decide), if_neg (by decide), if_pos rfl]
    simp
  rw [hrsa, haes, hec]
  by_cases h1 : isValidSize validRSASize ks = true
  · have hm1 := (isValidSize_iff _ _).mp h1
    by_cases h2 : isValidSize validAESSize ks = true
    · have hm2 := (isValidSize_iff _ _).mp h2
      by_cases h3 : isValidSize validECSize ks = true
      · have hm3 := (isValidSize_iff _ _).mp h3
        simp [h1, h2, h3, hm1, hm2, hm3]
      · have hn3 : ks ∉ validECSize := fun hm => h3 ((isValidSize_iff _ _).mpr hm)
        simp [h1, h2, h3, hm1, hm2, hn3]
    · have hn2 : ks ∉ validAESSize := fun hm => h2 ((isValidSize_iff _ _).mpr hm)
      by_cases h3 : isValidSize validECSize ks = true
      · have hm3 := (isValidSize_iff _ _).mp h3
        simp [h1, h2, h3, hm1, hn2, hm3]
      · have hn3 : ks ∉ validECSize := fun hm => h3 ((isValidSize_iff _ _).mpr hm)
        simp [h1, h2, h3, hm1, hn2, hn3]
  · have hn1 : ks ∉ validRSASize := fun hm => h1 ((isValidSize_iff _ _).mpr hm)
    by_cases h2 : isValidSize validAESSize ks = true
    · have hm2 := (isValidSize_iff _ _).mp h2
      by_cases h3 : isValidSize validECSize ks = true
      · have hm3 := (isValidSize_iff _ _).mp h3
        simp [h1, h2, h3, hn1, hm2, hm3]
      · have hn3 : ks ∉ validECSize := fun hm => h3 ((isValidSize_iff _ _).mpr hm)
        simp [h1, h2, h3, hn1, hm2, hn3]
    · have hn2 : ks ∉ validAESSize := fun hm => h2 ((isValidSize_iff _ _).mpr hm)
      by_cases h3 : isValidSize validECSize ks = true
      · have hm3 := (isValidSize_iff _ _).mp h3
        simp [h1, h2, h3, hn1, hn2, hm3]
      · have hn3 : ks ∉ validECSize := fun hm => h3 ((isValidSize_iff _ _).mpr hm)
        simp [h1, h2, h3, hn1, hn2, hn3]

/-- C6: EC generation with an algorithm designator other than "S256" always
fails with the invalid-size error (p11.go lines 485-490), whatever the key
size, before any token call. -/
theorem generateKeyPair_ec_algorithm_guard (l k alg : String) (ks : Int)
    (h : alg ≠ "S256") :
    generateKeyPair l k alg "EC" ks = .failure .invalidKeySize := by
  unfold generateKeyPair
  rw [if_neg (by decide), if_neg (by decide), if_pos rfl]
  have hb : (alg == "S256") = false := beq_eq_false_iff_ne.mpr h
  simp [hb]

/-- C6 witness: the designator "K256" with the valid size 256 is still
rejected. -/
theorem generateKeyPair_ec_algorithm_guard_witness :
    generateKeyPair "l" "k" "K256" "EC" 256 = .failure .invalidKeySize :=
  generateKeyPair_ec_algorithm_guard "l" "k" "K256" 256 (by decide)

theorem findPagesLoop_no_final (ps : List (Except P11Error (List Nat))) :
    ∀ acc, FEvent.finalCall ∉ (findPagesLoop ps acc).1 := by
  induction ps with
  | nil => intro acc; simp [findPagesLoop]
  | cons r rest ih =>
    intro acc
    match r with
    | .error e => simp [findPagesLoop]
    | .ok [] => simp [findPagesLoop]
    | .ok (x :: xs) =>
      simp only [findPagesLoop, List.mem_cons]
      push_neg
      exact ⟨by simp, ih _⟩

theorem findPagesLoop_ok_of_clean (ps : List (Except P11Error (List Nat)))
    (h : pagesClean ps = true) :
    ∀ acc, ∃ l, (findPagesLoop ps acc).2 = .ok l := by
  induction ps with
  | nil => intro acc; exact ⟨acc, rfl⟩
  | cons r rest ih =>
    intro acc
    match r with
    | .error e => simp [pagesClean] at h
    | .ok [] => exact ⟨acc, rfl⟩
    | .ok (x :: xs) =>
      have hrest : pagesClean rest = true := by simpa [pagesClean] using h
      simpa [findPagesLoop] using ih hrest (acc ++ (x :: xs))

theorem findPagesLoop_error_of_dirty (ps : List (Except P11Error (List Nat)))
    (h : pagesClean ps = false) :
    ∀ acc, ∃ e, (findPagesLoop ps acc).2 = .error e := by
  induction ps with
  | nil => simp [pagesClean] at h
  | cons r rest ih =>
    intro acc
    match r with
    | .error e => exact ⟨e, rfl⟩
    | .ok [] => simp [pagesClean] at h
    | .ok (x :: xs) =>
      have hrest : pagesClean rest = false := by simpa [pagesClean] using h
      simpa [findPagesLoop] using ih hrest (acc ++ (x :: xs))

/-- C7 counterexample: with a successful `FindObjectsInit` whose first paging
`FindObjects` call fails, `findAllMatching` returns the error immediately —
its call trace is init followed by one page call and contains no
`FindObjectsFinal`, leaving the search context open. -/
theorem findAllMatching_page_error_leaks_context :
    behaviorPageError.initErr = none
    ∧ (findAllMatchingTr behaviorPageError).1 = [.initCall, .pageCall]
    ∧ FEvent.finalCall ∉ (findAllMatchingTr behaviorPageError).1
    ∧ (findAllMatchingTr behaviorPageError).2 = .error (.tokenError 5) := by
  refine ⟨rfl, by decide, by decide, by rfl⟩

/-- C7 amended: search contexts are finalized only on the clean paths.
`findAllMatching` calls `FindObjectsFinal` exactly when `FindObjectsInit`
succeeded and no paging call returned an error before the loop finished;
`findKeyByLabel` calls it exactly when init succeeded and its single
`FindObjects` call yielded exactly one object. On the paging-error path and
on the match-count-not-one path the functions return with the search context
still open. -/
theorem search_context_finalization (b : FindBehavior) :
    (FEvent.finalCall ∈ (findAllMatchingTr b).1
      ↔ b.initErr = none ∧ pagesClean b.pages = true)
    ∧ (FEvent.finalCall ∈ (findKeyByLabelTr b).1
      ↔ b.initErr = none ∧ firstPageSingle b.pages = true) := by
  constructor
  · cases hinit : b.initErr with
    | some e => simp [findAllMatchingTr, hinit]
    | none =>
      simp only [findAllMatchingTr, hinit]
      by_cases hc : pagesClean b.pages = true
      · obtain ⟨l, hl⟩ := findPagesLoop_ok_of_clean b.pages hc []
        rw [hl]
        cases hfin : b.finalErr <;>
          simp [hc, List.mem_append]
      · have hcf : pagesClean b.pages = false := by
          revert hc; cases pagesClean b.pages <;> simp
        obtain ⟨e, he⟩ := findPagesLoop_error_of_dirty b.pages hcf []
        rw [he]
        simp [hcf, List.mem_cons, findPagesLoop_no_final b.pages []]
  · cases hinit : b.initErr with
    | some e => simp [findKeyByLabelTr, hinit]
    | none =>
      simp only [findKeyByLabelTr, hinit]
      by_cases h1 : (firstPageObjects b.pages).length = 1
      · rw [if_neg (by omega)]
        cases hfin : b.finalErr <;> simp [firstPageSingle, h1]
      · rw [if_pos h1]
        simp [firstPageSingle, h1]

/-- C8: over every initial object population and keep list, `DeleteAllExcept`
succeeds exactly when no object hits an unexpected label-read error or a
destroy failure, in which case it destroys exactly the objects whose label is
absent from the keep list together with every object whose label read fails
with no-such-attribute, keeping the rest; and even on an aborted run every
destroyed handle belongs to that set. -/
theorem deleteAllExcept_spec (keyLabels : List String) (objs : List TokenObj) :
    ((deleteAllExcept keyLabels objs).2 = .ok ()
      ↔ objs.all (goodObj keyLabels) = true)
    ∧ (objs.all (goodObj keyLabels) = true →
        deleteAllExcept keyLabels objs
          = ((objs.filter (shouldDelete keyLabels)).map (fun o => o.handle),
             Except.ok ()))
    ∧ ∀ h ∈ (deleteAllExcept keyLabels objs).1,
        h ∈ (objs.filter (shouldDelete keyLabels)).map (fun o => o.handle) := by
  induction objs with
  | nil =>
    refine ⟨by simp [deleteAllExcept], fun _ => by simp [deleteAllExcept], ?_⟩
    intro h hh
    simp [deleteAllExcept] at hh
  | cons o rest ih =>
    obtain ⟨ih1, ih2, ih3⟩ := ih
    cases hlr : o.labelRead with
    | found l =>
      by_cases hkeep : keyLabels.contains l = true
      · have hmem : l ∈ keyLabels := by simpa using hkeep
        have hred : deleteAllExcept keyLabels (o :: rest)
            = deleteAllExcept keyLabels rest := by
          simp only [deleteAllExcept, hlr]
          rw [if_pos hkeep]
        have hsd : shouldDelete keyLabels o = false := by
          simp [shouldDelete, hlr, hkeep, hmem]
        have hgood : goodObj keyLabels o = true := by
          simp [goodObj, hlr, hsd]
        refine ⟨?_, ?_, ?_⟩
        · rw [hred, List.all_cons, hgood]
          simpa using ih1
        · intro hall
          have hrest : rest.all (goodObj keyLabels) = true := by
            simpa [List.all_cons, hgood] using hall
          rw [hred, ih2 hrest]
          simp [List.filter_cons, hsd]
        · intro h hh
          rw [hred] at hh
          have hm := ih3 h hh
          simpa [List.filter_cons, hsd] using hm
      · have hnmem : l ∉ keyLabels := by simpa using hkeep
        by_cases hdok : o.destroyOk = true
        · have hred : deleteAllExcept keyLabels (o :: rest)
              = (o.handle :: (deleteAllExcept keyLabels rest).1,
                 (deleteAllExcept keyLabels rest).2) := by
            simp only [deleteAllExcept, hlr]
            rw [if_neg hkeep, if_pos hdok]
          have hsd : shouldDelete keyLabels o = true := by
            simp [shouldDelete, hlr, hkeep, hnmem]
          have hgood : goodObj keyLabels o = true := by
            simp [goodObj, hlr, hsd, hdok]
          refine ⟨?_, ?_, ?_⟩
          · rw [hred, List.all_cons, hgood]
            simpa using ih1
          · intro hall
            have hrest : rest.all (goodObj keyLabels) = true := by
              simpa [List.all_cons, hgood] using hall
            rw [hred, ih2 hrest]
            simp [List.filter_cons, hsd]
          · intro h hh
            rw [hred] at hh
            simp only [List.mem_cons] at hh
            rcases hh with rfl | hh2
            · simp [List.filter_cons, hsd]
            · have hm := ih3 h hh2
              simp only [List.filter_cons, hsd, if_true]
              simp only [List.map_cons, List.mem_cons]
              exact Or.inr (by simpa using hm)
        · have hred : deleteAllExcept keyLabels (o :: rest)
              = ([], .error .destroyFailed) := by
            simp only [deleteAllExcept, hlr]
            rw [if_neg hkeep, if_neg hdok]
          have hsd : shouldDelete keyLabels o = true := by
            simp [shouldDelete, hlr, hkeep, hnmem]
          have hgood : goodObj keyLabels o = false := by
            simp [goodObj, hlr, hsd, hdok]
          refine ⟨?_, ?_, ?_⟩
          · rw [hred, List.all_cons, hgood]
            simp
          · intro hall
            rw [List.all_cons, hgood] at hall
            simp at hall
          · intro h hh
            rw [hred] at hh
            simp at hh
    | noAttr =>
      have hsd : shouldDelete keyLabels o = true := by
        simp [shouldDelete, hlr]
      by_cases hdok : o.destroyOk = true
      · have hred : deleteAllExcept keyLabels (o :: rest)
            = (o.handle :: (deleteAllExcept keyLabels rest).1,
               (deleteAllExcept keyLabels rest).2) := by
          simp only [deleteAllExcept, hlr]
          rw [if_pos hdok]
        have hgood : goodObj keyLabels o = true := by
          simp [goodObj, hlr, hsd, hdok]
        refine ⟨?_, ?_, ?_⟩
        · rw [hred, List.all_cons, hgood]
          simpa using ih1
        · intro hall
          have hrest : rest.all (goodObj keyLabels) = true := by
            simpa [List.all_cons, hgood] using hall
          rw [hred, ih2 hrest]
          simp [List.filter_cons, hsd]
        · intro h hh
          rw [hred] at hh
          simp only [List.mem_cons] at hh
          rcases hh with rfl | hh2
          · simp [List.filter_cons, hsd]
          · have hm := ih3 h hh2
            simp only [List.filter_cons, hsd, if_true]
            simp only [List.map_cons, List.mem_cons]
            exact Or.inr (by simpa using hm)
      · have hred : deleteAllExcept keyLabels (o :: rest)
            = ([], .error .destroyFailed) := by
          simp only [deleteAllExcept, hlr]
          rw [if_neg hdok]
        have hgood : goodObj keyLabels o = false := by
          simp [goodObj, hlr, hsd, hdok]
        refine ⟨?_, ?_, ?_⟩
        · rw [hred, List.all_cons, hgood]
          simp
        · intro hall
          rw [List.all_cons, hgood] at hall
          simp at hall
        · intro h hh
          rw [hred] at hh
          simp at hh
    | otherErr c =>
      have hred : deleteAllExcept keyLabels (o :: rest)
          = ([], .error .attributeReadFailed) := by
        simp [deleteAllExcept, hlr]
      have hgood : goodObj keyLabels o = false := by
        simp [goodObj, hlr]
      refine ⟨?_, ?_, ?_⟩
      · rw [hred, List.all_cons, hgood]
        simp
      · intro hall
        rw [List.all_cons, hgood] at hall
        simp at hall
      · intro h hh
        rw [hred] at hh
        simp at hh

end EdgeIdentity
